import Mathlib

/-!
Verification of the remco resource supervisor and template utilities.

The development shallowly embeds the two source files of the repository:

* `template/util.go` — the key-prefixing helper `appendPrefix` (built on Go
  `path.Join` / `path.Clean`, which are reimplemented here functionally) and
  the `decrypt` helper (whose external collaborators — the base64 decoder,
  `openpgp.ReadMessage` and the gzip reader — are modelled as oracle
  functions, since they live outside this repository).
* the main package file — the data model (`resource`, `configuration`),
  `readFileAndExpandEnv`, `newConfiguration`, `configureLogger`, and the
  supervisor `run` with its per-resource worker goroutine.  File-system
  access, TOML unmarshalling, environment expansion, backend connection and
  the template engine are external collaborators and are modelled as
  oracles; the control flow of the embedded functions follows the Go source
  line by line.

Concurrency and real time are modelled discretely: a worker execution is a
timestamped event trace where the only time-advancing operation is the
2-second retry sleep (2 model ticks), and context cancellation is a tick
`tc` at which `ctx.Done()` becomes ready.  The Go `select` with a `default`
branch takes the ready `ctx.Done()` case when `tc ≤ now` and the `default`
branch otherwise, exactly as in the source.  The unbounded retry loop is
embedded with explicit fuel; theorems about terminating runs assume the
fuel was not exhausted.
-/

namespace Remco

/-! ### Go `path.Clean` and `path.Join` (from the standard library `path`
package, an external collaborator of `template/util.go`).

`Clean` is embedded by its standard specification: split on slashes,
drop empty and `.` components, resolve `..` against a stack (discarding
`..` at the root of a rooted path, keeping it for relative paths). -/

/-- Split a character list on the slash separator (string operations are
carried out on character lists so that they evaluate by kernel reduction). -/
def splitOnSlash : List Char → List (List Char)
  | [] => [[]]
  | c :: cs =>
    if c = '/' then [] :: splitOnSlash cs
    else
      match splitOnSlash cs with
      | [] => [[c]]
      | h :: t => (c :: h) :: t

/-- Join path components with slashes. -/
def joinSlash : List (List Char) → List Char
  | [] => []
  | [c] => c
  | c :: cs => c ++ '/' :: joinSlash cs

/-- One step of path cleaning: push a component onto the stack of kept
components (most recent first), dropping empty and `.` components and
resolving `..` against the stack. -/
def cleanStep (rooted : Bool) (stack : List (List Char)) (c : List Char) :
    List (List Char) :=
  if c = [] ∨ c = ['.'] then stack
  else if c = ['.', '.'] then
    match stack with
    | t :: rest => if t = ['.', '.'] then c :: stack else rest
    | [] => if rooted then [] else [['.', '.']]
  else c :: stack

/-- Go `path.Clean`, by its standard specification. -/
def pathClean (p : String) : String :=
  if p = "" then "."
  else
    let cs := p.data
    let rooted := match cs with | '/' :: _ => true | _ => false
    let comps := (splitOnSlash cs).foldl (cleanStep rooted) []
    let body := joinSlash comps.reverse
    if rooted then
      if body = [] then "/" else String.mk ('/' :: body)
    else
      if body = [] then "." else String.mk body

/-- Go `path.Join` restricted to two elements, as used by `appendPrefix`:
the first non-empty element starts the join, and the result is cleaned. -/
def pathJoin (a b : String) : String :=
  if a ≠ "" then pathClean (a ++ "/" ++ b)
  else if b ≠ "" then pathClean b
  else ""

/-- Function `appendPrefix` from `template/util.go`: allocates a slice of the same
length as `keys` and sets slot `i` to `path.Join(prefix, keys[i])`. -/
def appendPrefix (pre : String) (keys : List String) : List String :=
  keys.map (fun k => pathJoin pre k)

/-! ### The `decrypt` helper of `template/util.go`.

Its three collaborators — the streaming base64 decoder, `openpgp.ReadMessage`
and the gzip reader (`gzip.NewReader` followed by `ioutil.ReadAll`) — are
external libraries, modelled as oracle functions.  Byte sequences are
idealized as strings, matching the final `string(bytes)` conversion. -/

/-- A keyring (`openpgp.EntityList`), opaque to the embedded code. -/
structure EntityList where
  id : Nat
deriving DecidableEq

/-- The three failure classes of `decrypt`, in the order the stages run. -/
inductive DecryptErr where
  | decodeErr (m : String)
  | cryptoErr (m : String)
  | decompressErr (m : String)
deriving DecidableEq

/-- Oracles for the external collaborators of `decrypt`. -/
structure CryptoOps where
  base64Dec : String → Except String String
  readMessage : String → EntityList → Except String String
  gunzipAll : String → Except String String

/-- Function `decrypt` from `template/util.go`: base64-decode the input, open the
OpenPGP message against the keyring, gunzip the unverified body; on any
stage failure return the original input together with the error, otherwise
return the plaintext.  (In the Go source the base64 decoder is streamed
into `ReadMessage`; a base64 failure there surfaces as the error of the
first stage to consume the bad bytes, which the staged model reports as
`decodeErr`.) -/
def decrypt (ops : CryptoOps) (data : String) (el : EntityList) :
    String × Option DecryptErr :=
  match ops.base64Dec data with
  | .error e => (data, some (.decodeErr e))
  | .ok decoded =>
    match ops.readMessage decoded el with
    | .error e => (data, some (.cryptoErr e))
    | .ok body =>
      match ops.gunzipAll body with
      | .error e => (data, some (.decompressErr e))
      | .ok plain => (plain, none)

/-- The encryption side targeted by `decrypt` (external: crypt/openpgp). -/
structure EncOps where
  base64Enc : String → String
  pgpEncrypt : EntityList → String → String
  gzipStr : String → String

/-- A well-formed ciphertext for keyring `el`: the base64 encoding of an
OpenPGP message addressed to `el` whose body is the gzip compression of
the plaintext. -/
def encryptFor (enc : EncOps) (el : EntityList) (p : String) : String :=
  enc.base64Enc (enc.pgpEncrypt el (enc.gzipStr p))

/-! ### Data model and configuration loading (main package). -/

/-- Type `template.ProcessConfig` (external): an opaque template definition. -/
structure ProcessConfig where
  src : String
deriving DecidableEq

/-- The outcome of one `Connect()` call on a per-technology backend
configuration: a client (carrying its human-readable name), the
`ErrNilConfig` sentinel meaning the backend type is not configured, or any
other error (carrying the name logged via `b.Name` and the error text). -/
inductive ConnectResult where
  | ok (name : String)
  | nilConfig
  | err (name : String) (msg : String)
deriving DecidableEq

/-- One per-technology backend configuration (external collaborator):
`connect n` is the outcome of the `n`-th `Connect()` call made on it. -/
structure BackendCfg where
  connect : Nat → ConnectResult

/-- Type `backends.Config` (external): `GetBackends()` yields the per-technology
configurations present for a resource. -/
structure BackendGroup where
  getBackends : List BackendCfg

/-- Type `resource` from the main package: template definitions plus a backend
configuration group. -/
structure Resource where
  Template : List ProcessConfig
  Backend : BackendGroup

/-- Type `configuration` from the main package. -/
structure Configuration where
  LogLevel : String
  LogFormat : String
  IncludeDir : String
  Resource : List Resource

/-- The state of the global logger mutated by `configureLogger`
(`log.SetLevel` / `log.SetFormatter` / `log.Error`). -/
structure LoggerState where
  level : String
  format : String
  errors : List String

/-- Oracles for the external collaborators of configuration loading: the
file system, `os.ExpandEnv`, `toml.Unmarshal` into the two target types,
and validity of log-level names (`log.SetLevel` failure). -/
structure Fs where
  readFile : String → Except String String
  readDir : String → Except String (List String)
  expandEnv : String → String
  parseConfig : String → Except String Configuration
  parseResource : String → Except String Resource

/-- Go `strings.HasSuffix`, computed on character lists. -/
def hasSuffix (s suf : String) : Bool :=
  suf.data.isSuffixOf s.data

/-- Function `readFileAndExpandEnv` from the main package: read the file, then
expand environment variables in its contents. -/
def readFileAndExpandEnv (fs : Fs) (path : String) : Except String String :=
  match fs.readFile path with
  | .error e => .error e
  | .ok buf => .ok (fs.expandEnv buf)

/-- Function `configureLogger` from the main package: if a log level is set, apply
it (logging the error if `log.SetLevel` rejects it); if a log format is
set, apply it. -/
def configureLogger (valid : String → Bool) (c : Configuration) (st : LoggerState) :
    LoggerState :=
  let st1 :=
    if c.LogLevel ≠ "" then
      if valid c.LogLevel then { st with level := c.LogLevel }
      else { st with errors := st.errors ++ ["SetLevel failed"] }
    else st
  if c.LogFormat ≠ "" then { st1 with format := c.LogFormat } else st1

/-- The include-directory scan loop of `newConfiguration`: for each file
name ending in `.toml`, read and env-expand it, unmarshal it as a
`resource`, and append it to the configuration unless its template list is
empty; the first failure aborts the loop, returning the configuration
accumulated so far together with the error. -/
def includeLoop (fs : Fs) (dir : String) (files : List String)
    (c : Configuration) : Configuration × Option String :=
  match files with
  | [] => (c, none)
  | f :: rest =>
    if hasSuffix f ".toml" then
      match readFileAndExpandEnv fs (pathJoin dir f) with
      | .error e => (c, some e)
      | .ok buf =>
        match fs.parseResource buf with
        | .error e => (c, some e)
        | .ok r =>
          if r.Template.length > 0 then
            includeLoop fs dir rest { c with Resource := c.Resource ++ [r] }
          else includeLoop fs dir rest c
    else includeLoop fs dir rest c

/-- The zero value of `configuration` (Go `var c configuration`). -/
def emptyConfiguration : Configuration := ⟨"", "", "", []⟩

/-- Function `newConfiguration` from the main package: read and env-expand the
primary file, unmarshal it, configure the global logger from it, then, if
an include directory is set, scan it and process every `.toml` file.  On
any failure the configuration accumulated so far is returned together with
the error.  `valid` is the log-level acceptance oracle of the logger. -/
def newConfiguration (fs : Fs) (valid : String → Bool) (path : String)
    (st : LoggerState) : Configuration × LoggerState × Option String :=
  match readFileAndExpandEnv fs path with
  | .error e => (emptyConfiguration, st, some e)
  | .ok buf =>
    match fs.parseConfig buf with
    | .error e => (emptyConfiguration, st, some e)
    | .ok c =>
      let st1 := configureLogger valid c st
      if c.IncludeDir ≠ "" then
        match fs.readDir c.IncludeDir with
        | .error e => (c, st1, some e)
        | .ok files =>
          match includeLoop fs c.IncludeDir files c with
          | (c2, err) => (c2, st1, err)
      else (c, st1, none)

/-- A backend group with no backends, used in concrete scenarios. -/
def bg0 : BackendGroup := ⟨[]⟩

/-- Concrete loader oracle for the C6 scenario: the primary file parses to
a configuration declaring one resource with no template entries, and no
include directory is set. -/
def fsC6 : Fs :=
  { readFile := fun _ => .ok "primary",
    readDir := fun _ => .ok [],
    expandEnv := fun s => s,
    parseConfig := fun _ => .ok ⟨"", "", "", [⟨[], bg0⟩]⟩,
    parseResource := fun _ => .error "unused" }

/-- A concrete initial logger state. -/
def st0 : LoggerState := ⟨"info", "text", []⟩

/-- Concrete loader oracle for the C10 scenario: the primary file sets an
include directory `inc`; `inc/a.toml` parses to a one-template resource,
and `inc/b.toml` is unreadable. -/
def fsC10 : Fs :=
  { readFile := fun p =>
      if p = "remco.toml" then .ok "primary"
      else if p = "inc/a.toml" then .ok "resA"
      else .error "unreadable",
    readDir := fun _ => .ok ["a.toml", "b.toml"],
    expandEnv := fun s => s,
    parseConfig := fun _ => .ok ⟨"debug", "json", "inc", []⟩,
    parseResource := fun b =>
      if b = "resA" then .ok ⟨[⟨"tmpl"⟩], bg0⟩ else .error "boom" }

/-- Concrete loader oracle for the second C10 scenario: the primary file
sets an include directory, but reading the directory itself fails. -/
def fsC10b : Fs :=
  { readFile := fun _ => .ok "primary",
    readDir := fun _ => .error "permission denied",
    expandEnv := fun s => s,
    parseConfig := fun _ => .ok ⟨"debug", "json", "inc", []⟩,
    parseResource := fun _ => .error "unused" }

/-! ### The per-resource worker goroutine of `run` (main package).

A worker execution is a timestamped event trace.  Time is in seconds; the
only time-advancing operation is the `time.Sleep(2 * time.Second)` of the
retry loop (2 ticks).  `cancelAt = some tc` means the shared context is
cancelled at tick `tc`: the `select` at the head of each retry iteration
takes the ready `ctx.Done()` branch iff `tc ≤ now` and the `default`
branch (a `Connect()` attempt) otherwise — `time.Sleep` itself never
observes the context, exactly as in the source.  The unbounded retry loop
carries explicit fuel; `fuelOut` marks a run that exhausted it. -/

/-- Observable events of one worker goroutine. -/
inductive WEvent where
  | attempt (cfg n : Nat)
  | appended (name : String)
  | logFail (name msg : String)
  | closeSet (clients : List String)
  | buildFail (msg : String)
  | monitorRun
deriving DecidableEq

/-- A timestamped event trace. -/
abbrev Trace := List (Nat × WEvent)

/-- Whether `ctx.Done()` is ready at tick `t`. -/
def isDone (cancelAt : Option Nat) (t : Nat) : Bool :=
  match cancelAt with
  | none => false
  | some tc => tc ≤ t

/-- Outcome of one `retryloop` iteration sequence for one backend
configuration. -/
inductive LoopOut where
  | cancelledReturn (closed : List String)
  | next (acc : List String)
  | fuelOut
deriving DecidableEq

/-- The labelled `retryloop` of the worker for the `idx`-th backend
configuration `cfg`: at each iteration the `select` first checks
`ctx.Done()` (on cancellation: `backendList.Close()` and return from the
goroutine), otherwise calls `Connect()` — on success append the client and
break, on the `ErrNilConfig` sentinel break without appending, on any
other error log the failure, sleep 2 ticks and continue. -/
def retryLoop (cancelAt : Option Nat) (cfg : BackendCfg) (idx : Nat) :
    Nat → Nat → List String → Nat → Trace × Nat × LoopOut
  | _, t, _, 0 => ([], t, .fuelOut)
  | n, t, acc, fuel + 1 =>
    if isDone cancelAt t then
      ([(t, .closeSet acc)], t, .cancelledReturn acc)
    else
      match cfg.connect n with
      | .ok name =>
        ([(t, .attempt idx n), (t, .appended name)], t, .next (acc ++ [name]))
      | .nilConfig => ([(t, .attempt idx n)], t, .next acc)
      | .err name msg =>
        let r := retryLoop cancelAt cfg idx (n + 1) (t + 2) acc fuel
        ((t, .attempt idx n) :: (t, .logFail name msg) :: r.1, r.2)

/-- Exit status of the connect phase of one worker. -/
inductive ConnectExit where
  | cancelled
  | completed (clients : List String)
  | fuelOut
deriving DecidableEq

/-- The connect phase: run the `retryloop` for each backend configuration
of the resource in declaration order, threading the accumulated client
list and the clock. -/
def connectPhase (cancelAt : Option Nat) :
    List BackendCfg → Nat → Nat → List String → Nat → Trace × Nat × ConnectExit
  | [], _, t, acc, _ => ([], t, .completed acc)
  | cfg :: rest, idx, t, acc, fuel =>
    match retryLoop cancelAt cfg idx 0 t acc fuel with
    | (tr, t1, .cancelledReturn _) => (tr, t1, .cancelled)
    | (tr, t1, .fuelOut) => (tr, t1, .fuelOut)
    | (tr, t1, .next acc1) =>
      let r := connectPhase cancelAt rest (idx + 1) t1 acc1 fuel
      (tr ++ r.1, r.2)

/-- The external collaborators of one worker beyond the backends:
`template.NewResource` (`buildErr acc = some msg` models a construction
failure) and `t.Monitor(ctx)` (a blocking cancellable call;
`monitorExit t cancelAt` is the tick at which it returns given its start
tick and the cancellation tick). -/
structure WorkerEnv where
  configs : List BackendCfg
  buildErr : List String → Option String
  monitorExit : Nat → Option Nat → Nat

/-- Exit path of one worker goroutine. -/
inductive WorkerExit where
  | cancelledInConnect
  | buildFailed
  | monitorReturned
  | fuelOut
deriving DecidableEq

/-- One worker goroutine of `run`: connect phase (with the in-loop
cancellation path that closes the accumulated clients and returns), then
the deferred `backendList.Close()` is armed, then `template.NewResource`
(on failure: log and return, the deferred close firing), then
`t.Monitor(ctx)` until it returns, the deferred close firing after it. -/
def runWorker (env : WorkerEnv) (cancelAt : Option Nat) (fuel : Nat) :
    Trace × Nat × WorkerExit :=
  match connectPhase cancelAt env.configs 0 0 [] fuel with
  | (tr, t, .cancelled) => (tr, t, .cancelledInConnect)
  | (tr, t, .fuelOut) => (tr, t, .fuelOut)
  | (tr, t, .completed acc) =>
    match env.buildErr acc with
    | some msg => (tr ++ [(t, .buildFail msg), (t, .closeSet acc)], t, .buildFailed)
    | none =>
      let t1 := env.monitorExit t cancelAt
      (tr ++ [(t, .monitorRun), (t1, .closeSet acc)], t1, .monitorReturned)

/-- The names of the clients appended during a trace (the contents of
`backendList` as accumulated). -/
def appendedNames (tr : Trace) : List String :=
  tr.filterMap fun e =>
    match e.2 with
    | .appended name => some name
    | _ => none

/-- The argument lists of the `backendList.Close()` calls in a trace. -/
def closeLists (tr : Trace) : List (List String) :=
  tr.filterMap fun e =>
    match e.2 with
    | .closeSet l => some l
    | _ => none

/-- The `(tick, attempt-number)` pairs of the `Connect()` calls in a
trace. -/
def attemptEvents (tr : Trace) : List (Nat × Nat) :=
  tr.filterMap fun e =>
    match e with
    | (tm, .attempt _ n) => some (tm, n)
    | _ => none

/-- The `(backend-name, error)` pairs logged for connect failures. -/
def failLogs (tr : Trace) : List (String × String) :=
  tr.filterMap fun e =>
    match e.2 with
    | .logFail name msg => some (name, msg)
    | _ => none

/-- Concrete worker environment for the C3 scenario: a single backend
whose connect always fails transiently. -/
def envC3 : WorkerEnv :=
  { configs := [⟨fun _ => .err "etcd" "connection refused"⟩],
    buildErr := fun _ => none,
    monitorExit := fun t _ => t }

/-- Concrete worker environment for the C1 witness: one backend that
connects immediately, then `NewResource` fails. -/
def envC1 : WorkerEnv :=
  { configs := [⟨fun _ => .ok "etcd"⟩],
    buildErr := fun _ => some "invalid template",
    monitorExit := fun t _ => t }

/-- Concrete backend configuration for the C4 witness: two transient
failures, then success. -/
def cfgW : BackendCfg :=
  ⟨fun n => if n < 2 then .err "consul" "timeout" else .ok "consul"⟩

/-- Concrete backend configuration for the C5 witness: the not-configured
sentinel. -/
def cfgN : BackendCfg := ⟨fun _ => .nilConfig⟩

/-! ### The supervisor `run` (main package, lines 113–181).

`run` derives one cancellable context shared by all workers, spawns one
goroutine per resource counted by a `WaitGroup`, spawns a watcher that
closes `done` when the group count reaches zero, then selects between the
external `stop` channel (cancel, `wait.Wait()`, return) and `done`
(return).  Each worker is summarized by the ticks the supervisor can
observe: when it finishes if never cancelled, and when it finishes after a
cancellation; `failed` records whether it hit a worker-level failure
(build error), which the supervisor never consults. -/

/-- Abstract behavior of one worker goroutine as observed by the
supervisor. -/
structure WorkerBeh where
  natural : Option Nat
  onCancel : Nat → Nat
  failed : Bool

/-- The tick at which the `done` channel closes — every worker finished
naturally (`none` if some worker never finishes on its own, e.g. its watch
phase runs until cancelled). -/
def naturalAll (ws : List WorkerBeh) : Option Nat :=
  ws.foldr (fun w acc =>
    match w.natural, acc with
    | some d, some m => some (max d m)
    | _, _ => none) (some 0)

/-- The tick at which worker `w` is fully unwound (its release executed)
when the shared context is cancelled at tick `s`: its natural finish if it
had already finished by `s`, otherwise its cancellation unwind. -/
def unwindAt (s : Nat) (w : WorkerBeh) : Nat :=
  match w.natural with
  | some d => if d ≤ s then d else w.onCancel s
  | none => w.onCancel s

/-- The tick at which the `wait.Wait()` of the stop branch returns after a
cancellation at tick `s`: every worker has unwound. -/
def joinAfterCancel (s : Nat) (ws : List WorkerBeh) : Nat :=
  ws.foldr (fun w m => max (unwindAt s w) m) 0

/-- How `run` returned: through the stop branch (cancel, join, return) or
through the done branch (all workers finished on their own). -/
inductive SupOutcome where
  | stopped (cancelTick ret : Nat)
  | allDone (ret : Nat)
deriving DecidableEq

/-- The supervisor select loop of `run`.  `stopAt` is the tick at which
the external stop channel fires (`none`: never), the result is the branch
taken and the return tick; `none` models `run` blocking forever (no stop
and some worker never finishes).  When both channels are ready at the
same tick the Go `select` picks nondeterministically; this embedding
resolves the tie in favour of `done`, and no theorem below depends on the
tie. -/
def supRun (stopAt : Option Nat) (ws : List WorkerBeh) : Option SupOutcome :=
  match stopAt, naturalAll ws with
  | none, none => none
  | none, some d => some (.allDone d)
  | some s, none => some (.stopped s (max s (joinAfterCancel s ws)))
  | some s, some d =>
    if d ≤ s then some (.allDone d)
    else some (.stopped s (max s (joinAfterCancel s ws)))

/-- Erase the worker-failure flags. -/
def clearFailed (ws : List WorkerBeh) : List WorkerBeh :=
  ws.map fun w => { w with failed := false }

/-- Concrete worker behaviors for the C2 witness: one worker that runs
until cancelled, one that finishes naturally at tick 5 after a build
failure. -/
def wsC2 : List WorkerBeh :=
  [⟨none, fun s => s + 1, false⟩, ⟨some 5, fun s => s, true⟩]

/-- A single naturally-finishing worker for the C2 witness. -/
def wsC2b : List WorkerBeh := [⟨some 5, fun s => s, false⟩]

end Remco

namespace Remco

/-- Helper: a `retryloop` run that breaks to the next configuration has
appended exactly the clients recorded in its trace, performed no close,
and ends at a tick where the context is not yet cancelled. -/
theorem retryLoop_next (cancelAt : Option Nat) (cfg : BackendCfg) (idx : Nat)
    (fuel : Nat) :
    ∀ (n t : Nat) (acc : List String) (tr : Trace) (t1 : Nat)
      (acc1 : List String),
      retryLoop cancelAt cfg idx n t acc fuel = (tr, t1, .next acc1) →
      acc1 = acc ++ appendedNames tr ∧ closeLists tr = [] ∧
        isDone cancelAt t1 = false := by
  induction fuel with
  | zero =>
    intro n t acc tr t1 acc1 h
    simp [retryLoop] at h
  | succ f ih =>
    intro n t acc tr t1 acc1 h
    unfold retryLoop at h
    by_cases hd : isDone cancelAt t = true
    · rw [if_pos hd] at h
      simp at h
    · rw [if_neg hd] at h
      cases hc : cfg.connect n with
      | ok name =>
        rw [hc] at h
        dsimp only at h
        rw [Prod.mk.injEq] at h
        obtain ⟨htr, h23⟩ := h
        rw [Prod.mk.injEq] at h23
        obtain ⟨ht1, hout⟩ := h23
        cases hout
        subst htr ht1
        refine ⟨by simp [appendedNames], by simp [closeLists], ?_⟩
        simpa using hd
      | nilConfig =>
        rw [hc] at h
        dsimp only at h
        rw [Prod.mk.injEq] at h
        obtain ⟨htr, h23⟩ := h
        rw [Prod.mk.injEq] at h23
        obtain ⟨ht1, hout⟩ := h23
        cases hout
        subst htr ht1
        refine ⟨by simp [appendedNames], by simp [closeLists], ?_⟩
        simpa using hd
      | err name msg =>
        rw [hc] at h
        dsimp only at h
        rcases hr : retryLoop cancelAt cfg idx (n + 1) (t + 2) acc f
          with ⟨tr2, t2, out2⟩
        rw [hr] at h
        dsimp only at h
        rw [Prod.mk.injEq] at h
        obtain ⟨htr, h23⟩ := h
        rw [Prod.mk.injEq] at h23
        obtain ⟨ht1, hout⟩ := h23
        rw [hout] at hr
        obtain ⟨ha, hcl, hdn⟩ := ih (n + 1) (t + 2) acc tr2 t2 acc1 hr
        rw [ht1] at hdn
        subst htr
        refine ⟨?_, ?_, hdn⟩
        · simpa [appendedNames] using ha
        · simpa [closeLists] using hcl

/-- Helper: a `retryloop` run that exits through the `ctx.Done()` branch
closes exactly the clients accumulated on entry, as the final event of its
trace, having appended nothing and closed nothing earlier; the close tick
is the entry tick or follows a full 2-tick sleep that began before
cancellation, and the context is cancelled at the close tick. -/
theorem retryLoop_cancelled (cancelAt : Option Nat) (cfg : BackendCfg)
    (idx fuel : Nat) :
    ∀ (n t : Nat) (acc : List String) (tr : Trace) (t1 : Nat)
      (l : List String),
      retryLoop cancelAt cfg idx n t acc fuel = (tr, t1, .cancelledReturn l) →
      l = acc ∧
      (∃ pre, tr = pre ++ [(t1, .closeSet acc)] ∧ closeLists pre = [] ∧
        appendedNames pre = []) ∧
      isDone cancelAt t1 = true ∧
      (t1 = t ∨ ∃ tp, t1 = tp + 2 ∧ isDone cancelAt tp = false) := by
  induction fuel with
  | zero =>
    intro n t acc tr t1 l h
    simp [retryLoop] at h
  | succ f ih =>
    intro n t acc tr t1 l h
    unfold retryLoop at h
    by_cases hd : isDone cancelAt t = true
    · rw [if_pos hd] at h
      rw [Prod.mk.injEq] at h
      obtain ⟨htr, h23⟩ := h
      rw [Prod.mk.injEq] at h23
      obtain ⟨ht1, hout⟩ := h23
      cases hout
      subst htr
      subst ht1
      exact ⟨rfl, ⟨[], rfl, rfl, rfl⟩, hd, Or.inl rfl⟩
    · rw [if_neg hd] at h
      cases hc : cfg.connect n with
      | ok name =>
        rw [hc] at h
        dsimp only at h
        rw [Prod.mk.injEq] at h
        obtain ⟨-, h23⟩ := h
        rw [Prod.mk.injEq] at h23
        obtain ⟨-, hout⟩ := h23
        cases hout
      | nilConfig =>
        rw [hc] at h
        dsimp only at h
        rw [Prod.mk.injEq] at h
        obtain ⟨-, h23⟩ := h
        rw [Prod.mk.injEq] at h23
        obtain ⟨-, hout⟩ := h23
        cases hout
      | err name msg =>
        rw [hc] at h
        dsimp only at h
        rcases hr : retryLoop cancelAt cfg idx (n + 1) (t + 2) acc f
          with ⟨tr2, t2, out2⟩
        rw [hr] at h
        dsimp only at h
        rw [Prod.mk.injEq] at h
        obtain ⟨htr, h23⟩ := h
        rw [Prod.mk.injEq] at h23
        obtain ⟨ht1, hout⟩ := h23
        rw [hout] at hr
        obtain ⟨hl, ⟨pre, hpre, hcl, hap⟩, hdn, htm⟩ :=
          ih (n + 1) (t + 2) acc tr2 t2 l hr
        subst htr
        rw [ht1] at hpre hdn htm
        refine ⟨hl, ⟨(t, .attempt idx n) :: (t, .logFail name msg) :: pre,
          by simp [hpre], by simpa [closeLists] using hcl,
          by simpa [appendedNames] using hap⟩, hdn, ?_⟩
        rcases htm with h2 | ⟨tp, htp, hdp⟩
        · exact Or.inr ⟨t, h2, by simpa using hd⟩
        · exact Or.inr ⟨tp, htp, hdp⟩

/-- Helper: every `Connect()` attempt in a `retryloop` trace happens at a
tick where the context is not yet cancelled. -/
theorem retryLoop_attempts (cancelAt : Option Nat) (cfg : BackendCfg)
    (idx fuel : Nat) :
    ∀ (n t : Nat) (acc : List String) (tr : Trace) (t1 : Nat)
      (out : LoopOut),
      retryLoop cancelAt cfg idx n t acc fuel = (tr, t1, out) →
      ∀ tm i m, (tm, WEvent.attempt i m) ∈ tr →
        isDone cancelAt tm = false := by
  induction fuel with
  | zero =>
    intro n t acc tr t1 out h tm i m hm
    simp [retryLoop] at h
    obtain ⟨htr, -⟩ := h
    rw [htr] at hm
    simp at hm
  | succ f ih =>
    intro n t acc tr t1 out h tm i m hm
    unfold retryLoop at h
    by_cases hd : isDone cancelAt t = true
    · rw [if_pos hd] at h
      rw [Prod.mk.injEq] at h
      obtain ⟨htr, -⟩ := h
      rw [← htr] at hm
      simp at hm
    · rw [if_neg hd] at h
      cases hc : cfg.connect n with
      | ok name =>
        rw [hc] at h
        dsimp only at h
        rw [Prod.mk.injEq] at h
        obtain ⟨htr, -⟩ := h
        rw [← htr] at hm
        simp at hm
        obtain ⟨h1, -, -⟩ := hm
        subst h1
        simpa using hd
      | nilConfig =>
        rw [hc] at h
        dsimp only at h
        rw [Prod.mk.injEq] at h
        obtain ⟨htr, -⟩ := h
        rw [← htr] at hm
        simp at hm
        obtain ⟨h1, -, -⟩ := hm
        subst h1
        simpa using hd
      | err name msg =>
        rw [hc] at h
        dsimp only at h
        rcases hr : retryLoop cancelAt cfg idx (n + 1) (t + 2) acc f
          with ⟨tr2, t2, out2⟩
        rw [hr] at h
        dsimp only at h
        rw [Prod.mk.injEq] at h
        obtain ⟨htr, -⟩ := h
        rw [← htr] at hm
        simp at hm
        rcases hm with ⟨h1, -, -⟩ | hm3
        · subst h1
          simpa using hd
        · exact ih (n + 1) (t + 2) acc tr2 t2 out2 hr tm i m hm3

/-- Helper: `appendedNames` distributes over trace concatenation. -/
theorem appendedNames_append (a b : Trace) :
    appendedNames (a ++ b) = appendedNames a ++ appendedNames b := by
  simp [appendedNames]

/-- Helper: `closeLists` distributes over trace concatenation. -/
theorem closeLists_append (a b : Trace) :
    closeLists (a ++ b) = closeLists a ++ closeLists b := by
  simp [closeLists]

/-- Helper: a completed connect phase appended exactly the clients
recorded in its trace and performed no close. -/
theorem connectPhase_completed (cancelAt : Option Nat) (fuel : Nat) :
    ∀ (configs : List BackendCfg) (idx t : Nat) (acc : List String)
      (tr : Trace) (t1 : Nat) (acc1 : List String),
      connectPhase cancelAt configs idx t acc fuel = (tr, t1, .completed acc1) →
      acc1 = acc ++ appendedNames tr ∧ closeLists tr = [] := by
  intro configs
  induction configs with
  | nil =>
    intro idx t acc tr t1 acc1 h
    unfold connectPhase at h
    rw [Prod.mk.injEq] at h
    obtain ⟨htr, h23⟩ := h
    rw [Prod.mk.injEq] at h23
    obtain ⟨-, hout⟩ := h23
    cases hout
    subst htr
    exact ⟨by simp [appendedNames], by simp [closeLists]⟩
  | cons cfg rest ih =>
    intro idx t acc tr t1 acc1 h
    unfold connectPhase at h
    rcases hr : retryLoop cancelAt cfg idx 0 t acc fuel with ⟨tr0, t0, out0⟩
    rw [hr] at h
    cases out0 with
    | cancelledReturn l =>
      dsimp only at h
      rw [Prod.mk.injEq] at h
      obtain ⟨-, h23⟩ := h
      rw [Prod.mk.injEq] at h23
      obtain ⟨-, hout⟩ := h23
      cases hout
    | fuelOut =>
      dsimp only at h
      rw [Prod.mk.injEq] at h
      obtain ⟨-, h23⟩ := h
      rw [Prod.mk.injEq] at h23
      obtain ⟨-, hout⟩ := h23
      cases hout
    | next acc2 =>
      dsimp only at h
      rcases hr2 : connectPhase cancelAt rest (idx + 1) t0 acc2 fuel
        with ⟨tr3, t3, out3⟩
      rw [hr2] at h
      dsimp only at h
      rw [Prod.mk.injEq] at h
      obtain ⟨htr, h23⟩ := h
      rw [Prod.mk.injEq] at h23
      obtain ⟨-, hout⟩ := h23
      rw [hout] at hr2
      obtain ⟨ha3, hc3⟩ := ih (idx + 1) t0 acc2 tr3 t3 acc1 hr2
      obtain ⟨ha0, hc0, -⟩ := retryLoop_next cancelAt cfg idx fuel 0 t acc
        tr0 t0 acc2 hr
      subst htr
      constructor
      · rw [ha3, ha0, appendedNames_append, List.append_assoc]
      · rw [closeLists_append, hc0, hc3]
        rfl

/-- Helper: a connect phase aborted by cancellation ends with the single
close of the clients accumulated up to that point (entry clients plus
everything appended in this phase), earlier events closing nothing; the
context is cancelled at the close tick, which is the entry tick or the end
of a full 2-tick sleep begun before cancellation. -/
theorem connectPhase_cancelled (cancelAt : Option Nat) (fuel : Nat) :
    ∀ (configs : List BackendCfg) (idx t : Nat) (acc : List String)
      (tr : Trace) (t1 : Nat),
      connectPhase cancelAt configs idx t acc fuel = (tr, t1, .cancelled) →
      (∃ pre, tr = pre ++ [(t1, .closeSet (acc ++ appendedNames pre))] ∧
        closeLists pre = [] ∧ appendedNames tr = appendedNames pre) ∧
      isDone cancelAt t1 = true ∧
      (t1 = t ∨ ∃ tp, t1 = tp + 2 ∧ isDone cancelAt tp = false) := by
  intro configs
  induction configs with
  | nil =>
    intro idx t acc tr t1 h
    unfold connectPhase at h
    rw [Prod.mk.injEq] at h
    obtain ⟨-, h23⟩ := h
    rw [Prod.mk.injEq] at h23
    obtain ⟨-, hout⟩ := h23
    cases hout
  | cons cfg rest ih =>
    intro idx t acc tr t1 h
    unfold connectPhase at h
    rcases hr : retryLoop cancelAt cfg idx 0 t acc fuel with ⟨tr0, t0, out0⟩
    rw [hr] at h
    cases out0 with
    | fuelOut =>
      dsimp only at h
      rw [Prod.mk.injEq] at h
      obtain ⟨-, h23⟩ := h
      rw [Prod.mk.injEq] at h23
      obtain ⟨-, hout⟩ := h23
      cases hout
    | cancelledReturn l =>
      dsimp only at h
      rw [Prod.mk.injEq] at h
      obtain ⟨htr, h23⟩ := h
      rw [Prod.mk.injEq] at h23
      obtain ⟨ht1, -⟩ := h23
      obtain ⟨-, ⟨pre, hpre, hcl, hap⟩, hdn, htm⟩ :=
        retryLoop_cancelled cancelAt cfg idx fuel 0 t acc tr0 t0 l hr
      subst htr
      rw [ht1] at hpre hdn htm
      refine ⟨⟨pre, ?_, hcl, ?_⟩, hdn, htm⟩
      · rw [hpre, hap]
        simp
      · rw [hpre, appendedNames_append, hap]
        simp [appendedNames]
    | next acc2 =>
      dsimp only at h
      rcases hr2 : connectPhase cancelAt rest (idx + 1) t0 acc2 fuel
        with ⟨tr3, t3, out3⟩
      rw [hr2] at h
      dsimp only at h
      rw [Prod.mk.injEq] at h
      obtain ⟨htr, h23⟩ := h
      rw [Prod.mk.injEq] at h23
      obtain ⟨ht1, hout⟩ := h23
      rw [hout] at hr2
      obtain ⟨⟨pre3, hpre3, hcl3, hap3⟩, hdn3, htm3⟩ :=
        ih (idx + 1) t0 acc2 tr3 t3 hr2
      obtain ⟨ha0, hc0, hdn0⟩ := retryLoop_next cancelAt cfg idx fuel 0 t acc
        tr0 t0 acc2 hr
      subst htr
      rw [ht1] at hpre3 hdn3 htm3
      refine ⟨⟨tr0 ++ pre3, ?_, ?_, ?_⟩, hdn3, ?_⟩
      · rw [hpre3, ha0, appendedNames_append, List.append_assoc]
        simp
      · rw [closeLists_append, hc0, hcl3]
        rfl
      · rw [hpre3, appendedNames_append, appendedNames_append,
          appendedNames_append]
        simp [appendedNames]
      · rcases htm3 with h0 | ⟨tp, htp, hdp⟩
        · exact Or.inl (by rw [h0] at hdn3; rw [h0]; exact absurd hdn3 (by simp [hdn0]))
        · exact Or.inr ⟨tp, htp, hdp⟩

/-- Helper: every `Connect()` attempt in a connect-phase trace happens at
a tick where the context is not yet cancelled. -/
theorem connectPhase_attempts (cancelAt : Option Nat) (fuel : Nat) :
    ∀ (configs : List BackendCfg) (idx t : Nat) (acc : List String)
      (tr : Trace) (t1 : Nat) (out : ConnectExit),
      connectPhase cancelAt configs idx t acc fuel = (tr, t1, out) →
      ∀ tm i m, (tm, WEvent.attempt i m) ∈ tr →
        isDone cancelAt tm = false := by
  intro configs
  induction configs with
  | nil =>
    intro idx t acc tr t1 out h tm i m hm
    unfold connectPhase at h
    rw [Prod.mk.injEq] at h
    obtain ⟨htr, -⟩ := h
    rw [← htr] at hm
    simp at hm
  | cons cfg rest ih =>
    intro idx t acc tr t1 out h tm i m hm
    unfold connectPhase at h
    rcases hr : retryLoop cancelAt cfg idx 0 t acc fuel with ⟨tr0, t0, out0⟩
    rw [hr] at h
    cases out0 with
    | cancelledReturn l =>
      dsimp only at h
      rw [Prod.mk.injEq] at h
      obtain ⟨htr, -⟩ := h
      rw [← htr] at hm
      exact retryLoop_attempts cancelAt cfg idx fuel 0 t acc tr0 t0
        (.cancelledReturn l) hr tm i m hm
    | fuelOut =>
      dsimp only at h
      rw [Prod.mk.injEq] at h
      obtain ⟨htr, -⟩ := h
      rw [← htr] at hm
      exact retryLoop_attempts cancelAt cfg idx fuel 0 t acc tr0 t0
        .fuelOut hr tm i m hm
    | next acc2 =>
      dsimp only at h
      rcases hr2 : connectPhase cancelAt rest (idx + 1) t0 acc2 fuel
        with ⟨tr3, t3, out3⟩
      rw [hr2] at h
      dsimp only at h
      rw [Prod.mk.injEq] at h
      obtain ⟨htr, -⟩ := h
      rw [← htr] at hm
      rcases List.mem_append.mp hm with hm0 | hm3
      · exact retryLoop_attempts cancelAt cfg idx fuel 0 t acc tr0 t0
          (.next acc2) hr tm i m hm0
      · exact ih (idx + 1) t0 acc2 tr3 t3 out3 hr2 tm i m hm3

/-- Helper: the include scan only appends resources, and every appended
resource has a non-empty template list. -/
theorem includeLoop_resources (fs : Fs) (dir : String) :
    ∀ (files : List String) (c : Configuration),
      ∃ l, (includeLoop fs dir files c).1.Resource = c.Resource ++ l ∧
        ∀ r ∈ l, r.Template ≠ [] := by
  intro files
  induction files with
  | nil => intro c; exact ⟨[], by simp [includeLoop], by simp⟩
  | cons f rest ih =>
    intro c
    unfold includeLoop
    split
    · cases hrf : readFileAndExpandEnv fs (pathJoin dir f) with
      | error e => exact ⟨[], by simp [hrf], by simp⟩
      | ok buf =>
        cases hpr : fs.parseResource buf with
        | error e => exact ⟨[], by simp [hrf, hpr], by simp⟩
        | ok r =>
          by_cases hlen : 0 < r.Template.length
          · obtain ⟨l, hl, hne⟩ := ih { c with Resource := c.Resource ++ [r] }
            refine ⟨r :: l, ?_, ?_⟩
            · simp only [hrf, hpr, if_pos hlen, hl]
              simp
            · intro r2 hr2
              rcases List.mem_cons.mp hr2 with h | h
              · subst h
                exact List.length_pos.mp hlen
              · exact hne r2 h
          · obtain ⟨l, hl, hne⟩ := ih c
            exact ⟨l, by simp only [hrf, hpr, if_neg hlen, hl], hne⟩
    · exact ih c

/-- Helper: the include scan over `xs ++ ys` runs `xs` first; if that part
completes without error, the scan continues with `ys` from the accumulated
configuration. -/
theorem includeLoop_append_ok (fs : Fs) (dir : String) :
    ∀ (xs ys : List String) (c c1 : Configuration),
      includeLoop fs dir xs c = (c1, none) →
      includeLoop fs dir (xs ++ ys) c = includeLoop fs dir ys c1 := by
  intro xs
  induction xs with
  | nil =>
    intro ys c c1 h
    simp only [includeLoop] at h
    cases h
    simp
  | cons f rest ih =>
    intro ys c c1 h
    simp only [List.cons_append]
    unfold includeLoop at h
    conv_lhs => unfold includeLoop
    by_cases hsuf : hasSuffix f ".toml" = true
    · rw [if_pos hsuf] at h ⊢
      cases hrf : readFileAndExpandEnv fs (pathJoin dir f) with
      | error e =>
        rw [hrf] at h
        simp at h
      | ok buf =>
        rw [hrf] at h
        dsimp only at h ⊢
        cases hpr : fs.parseResource buf with
        | error e =>
          rw [hpr] at h
          simp at h
        | ok r =>
          rw [hpr] at h
          dsimp only at h ⊢
          by_cases hlen : r.Template.length > 0
          · rw [if_pos hlen] at h ⊢
            exact ih ys _ c1 h
          · rw [if_neg hlen] at h ⊢
            exact ih ys _ c1 h
    · rw [if_neg hsuf] at h ⊢
      exact ih ys _ c1 h

/-- Helper for C4: if the connect attempts starting at counter `n` fail
`K` times and then succeed, the `retryloop` produces the fully determined
trace — an attempt every 2 ticks, each failure logged, then the successful
attempt appending the one client — and breaks to the next configuration at
tick `t + 2K`. -/
theorem retryLoop_fail_then_succeed (cfg : BackendCfg) (nm ms : Nat → String)
    (cname : String) (idx : Nat) :
    ∀ (K n t fuel : Nat) (acc : List String),
      (∀ i, i < K → cfg.connect (n + i) = .err (nm (n + i)) (ms (n + i))) →
      cfg.connect (n + K) = .ok cname →
      K < fuel →
      ∃ tr, retryLoop none cfg idx n t acc fuel
          = (tr, t + 2 * K, .next (acc ++ [cname])) ∧
        attemptEvents tr = (List.range (K + 1)).map (fun i => (t + 2 * i, n + i)) ∧
        failLogs tr = (List.range K).map (fun i => (nm (n + i), ms (n + i))) ∧
        appendedNames tr = [cname] := by
  intro K
  induction K with
  | zero =>
    intro n t fuel acc hfail hsucc hfuel
    obtain ⟨f, rfl⟩ : ∃ f, fuel = f + 1 := ⟨fuel - 1, by omega⟩
    refine ⟨[(t, .attempt idx n), (t, .appended cname)], ?_, ?_, ?_, ?_⟩
    · unfold retryLoop
      rw [if_neg (by simp [isDone])]
      rw [show cfg.connect n = .ok cname from by simpa using hsucc]
      simp
    · simp [attemptEvents, List.range_succ]
    · simp [failLogs]
    · simp [appendedNames]
  | succ K ih =>
    intro n t fuel acc hfail hsucc hfuel
    obtain ⟨f, rfl⟩ : ∃ f, fuel = f + 1 := ⟨fuel - 1, by omega⟩
    have h0 : cfg.connect n = .err (nm n) (ms n) := by
      simpa using hfail 0 (Nat.succ_pos K)
    have hfail2 : ∀ i, i < K →
        cfg.connect (n + 1 + i) = .err (nm (n + 1 + i)) (ms (n + 1 + i)) := by
      intro i hi
      have := hfail (i + 1) (by omega)
      rwa [show n + (i + 1) = n + 1 + i by omega] at this
    have hsucc2 : cfg.connect (n + 1 + K) = .ok cname := by
      rwa [show n + (K + 1) = n + 1 + K by omega] at hsucc
    obtain ⟨tr2, htr2, hat2, hfl2, hap2⟩ :=
      ih (n + 1) (t + 2) f acc hfail2 hsucc2 (by omega)
    refine ⟨(t, .attempt idx n) :: (t, .logFail (nm n) (ms n)) :: tr2,
      ?_, ?_, ?_, ?_⟩
    · unfold retryLoop
      rw [if_neg (by simp [isDone])]
      rw [h0]
      dsimp only
      rw [htr2]
      rw [show t + 2 + 2 * K = t + 2 * (K + 1) by omega]
    · rw [show attemptEvents ((t, WEvent.attempt idx n)
          :: (t, WEvent.logFail (nm n) (ms n)) :: tr2)
          = (t, n) :: attemptEvents tr2 from by simp [attemptEvents], hat2]
      conv_rhs => rw [List.range_succ_eq_map]
      rw [List.map_cons, List.map_map]
      refine List.cons_eq_cons.mpr ⟨by simp, ?_⟩
      refine List.map_congr_left ?_
      intro i hi
      simp [Prod.ext_iff]
      omega
    · rw [show failLogs ((t, WEvent.attempt idx n)
          :: (t, WEvent.logFail (nm n) (ms n)) :: tr2)
          = (nm n, ms n) :: failLogs tr2 from by simp [failLogs], hfl2]
      conv_rhs => rw [List.range_succ_eq_map]
      rw [List.map_cons, List.map_map]
      refine List.cons_eq_cons.mpr ⟨by simp, ?_⟩
      refine List.map_congr_left ?_
      intro i hi
      simp [Prod.ext_iff]
      constructor
      · exact congrArg nm (by omega)
      · exact congrArg ms (by omega)
    · rw [show appendedNames ((t, WEvent.attempt idx n)
          :: (t, WEvent.logFail (nm n) (ms n)) :: tr2)
          = appendedNames tr2 from by simp [appendedNames], hap2]

/-- C9: `appendPrefix` returns a sequence of exactly the same length as the
input whose `i`-th element is the path-join of the prefix with the `i`-th
input key, preserving order and multiplicity; in particular
`appendPrefix "/app" ["a","b","a"] = ["/app/a","/app/b","/app/a"]`. -/
theorem C9_appendPrefix_pointwise :
    ∀ (pre : String) (keys : List String),
      (appendPrefix pre keys).length = keys.length ∧
      (∀ i : Nat, (appendPrefix pre keys)[i]? = (keys[i]?).map (pathJoin pre)) ∧
      appendPrefix "/app" ["a", "b", "a"] = ["/app/a", "/app/b", "/app/a"] := by
  intro pre keys
  refine ⟨by simp [appendPrefix], fun i => ?_, by decide⟩
  simp [appendPrefix]

/-- C7: whenever `decrypt` fails — at the base64 stage, the OpenPGP stage,
or the gzip stage — the string it returns alongside the error is exactly
the original input, never a substituted or partial value. -/
theorem C7_decrypt_error_returns_input
    (ops : CryptoOps) (data : String) (el : EntityList) (e : DecryptErr)
    (h : (decrypt ops data el).2 = some e) :
    (decrypt ops data el).1 = data := by
  unfold decrypt at h ⊢
  cases hb : ops.base64Dec data with
  | error eb => simp [hb]
  | ok dec =>
    cases hr : ops.readMessage dec el with
    | error er => simp [hb, hr]
    | ok body =>
      cases hg : ops.gunzipAll body with
      | error eg => simp [hb, hr, hg]
      | ok plain => simp [hb, hr, hg] at h

/-- Witness for C7 at a concrete failing input. -/
theorem C7_decrypt_error_returns_input_witness :
    (decrypt ⟨fun _ => .error "bad b64", fun _ _ => .error "x",
        fun _ => .error "y"⟩ "ciphertext" ⟨0⟩).1 = "ciphertext" :=
  C7_decrypt_error_returns_input _ "ciphertext" ⟨0⟩ (.decodeErr "bad b64") rfl

/-- C8: `decrypt` is a right inverse of the targeted encryption scheme.
Under the contracts of the external crypto collaborators at the relevant
values — base64 decoding inverts base64 encoding, `ReadMessage` with the
matching keyring recovers the encrypted body and fails with any other
keyring, and gunzip inverts gzip — decrypting a well-formed ciphertext for
keyring `el` with `el` yields exactly the plaintext with no error, and
decrypting it with a different keyring `el2` fails with a crypto error and
returns the original ciphertext unchanged. -/
theorem C8_decrypt_right_inverse
    (ops : CryptoOps) (enc : EncOps) (el el2 : EntityList) (p : String)
    (e2 : String)
    (hdec : ops.base64Dec (enc.base64Enc (enc.pgpEncrypt el (enc.gzipStr p)))
      = .ok (enc.pgpEncrypt el (enc.gzipStr p)))
    (hmatch : ops.readMessage (enc.pgpEncrypt el (enc.gzipStr p)) el
      = .ok (enc.gzipStr p))
    (hgz : ops.gunzipAll (enc.gzipStr p) = .ok p)
    (hmis : ops.readMessage (enc.pgpEncrypt el (enc.gzipStr p)) el2
      = .error e2) :
    decrypt ops (encryptFor enc el p) el = (p, none) ∧
    decrypt ops (encryptFor enc el p) el2
      = (encryptFor enc el p, some (.cryptoErr e2)) := by
  constructor
  · unfold decrypt encryptFor
    simp only [hdec, hmatch, hgz]
  · unfold decrypt encryptFor
    simp only [hdec, hmis]

/-- Witness for C8 with a concrete toy scheme satisfying the collaborator
contracts at the used values. -/
theorem C8_decrypt_right_inverse_witness :
    decrypt
        ⟨fun s => if s = "B0#Gp" then .ok "0#Gp" else .error "decode",
         fun s el => if s = "0#Gp" ∧ el = ⟨0⟩ then .ok "Gp" else .error "ck",
         fun s => if s = "Gp" then .ok "p" else .error "gz"⟩
        (encryptFor
          ⟨fun s => "B" ++ s,
           fun el m => (if el = ⟨0⟩ then "0#" else "1#") ++ m,
           fun q => "G" ++ q⟩ ⟨0⟩ "p") ⟨0⟩ = ("p", none) ∧
    decrypt
        ⟨fun s => if s = "B0#Gp" then .ok "0#Gp" else .error "decode",
         fun s el => if s = "0#Gp" ∧ el = ⟨0⟩ then .ok "Gp" else .error "ck",
         fun s => if s = "Gp" then .ok "p" else .error "gz"⟩
        (encryptFor
          ⟨fun s => "B" ++ s,
           fun el m => (if el = ⟨0⟩ then "0#" else "1#") ++ m,
           fun q => "G" ++ q⟩ ⟨0⟩ "p") ⟨1⟩
      = (encryptFor
          ⟨fun s => "B" ++ s,
           fun el m => (if el = ⟨0⟩ then "0#" else "1#") ++ m,
           fun q => "G" ++ q⟩ ⟨0⟩ "p", some (.cryptoErr "ck")) :=
  C8_decrypt_right_inverse _ _ ⟨0⟩ ⟨1⟩ "p" "ck" rfl rfl rfl rfl

/-- C6 as stated is false: a resource with no template entries declared in
the *primary* file is not discarded — `newConfiguration` returns it.  The
`len(r.Template) > 0` guard applies only to include-directory files. -/
theorem C6_counterexample :
    ¬ ∀ r ∈ (newConfiguration fsC6 (fun _ => true) "remco.toml" st0).1.Resource,
        r.Template ≠ [] := by
  intro h
  exact h ⟨[], bg0⟩ (List.mem_singleton.mpr rfl) rfl

/-- C6 amended: the resource list returned by `newConfiguration` is the
primary file's parsed resource list — returned as-is, empty resources
included — extended only by include-directory resources whose template
list is non-empty; the empty-resource discard applies to include-directory
entries only. -/
theorem C6_amended_include_discard_only
    (fs : Fs) (valid : String → Bool) (path : String) (st : LoggerState)
    (buf : String) (c0 : Configuration)
    (hread : readFileAndExpandEnv fs path = .ok buf)
    (hparse : fs.parseConfig buf = .ok c0) :
    ∃ l, (newConfiguration fs valid path st).1.Resource = c0.Resource ++ l ∧
      ∀ r ∈ l, r.Template ≠ [] := by
  unfold newConfiguration
  rw [hread]
  dsimp only
  rw [hparse]
  dsimp only
  by_cases hdir : c0.IncludeDir ≠ ""
  · rw [if_pos hdir]
    cases hrd : fs.readDir c0.IncludeDir with
    | error e => exact ⟨[], by simp, by simp⟩
    | ok files =>
      obtain ⟨l, hl, hne⟩ := includeLoop_resources fs c0.IncludeDir files c0
      refine ⟨l, ?_, hne⟩
      dsimp only
      rcases hil : includeLoop fs c0.IncludeDir files c0 with ⟨c2, err⟩
      rw [hil] at hl
      simpa using hl
  · rw [if_neg hdir]
    exact ⟨[], by simp, by simp⟩

/-- Witness for the amended C6 at the concrete C6 scenario. -/
theorem C6_amended_include_discard_only_witness :
    ∃ l, (newConfiguration fsC6 (fun _ => true) "remco.toml" st0).1.Resource
        = [⟨[], bg0⟩] ++ l ∧ ∀ r ∈ l, r.Template ≠ [] :=
  C6_amended_include_discard_only fsC6 (fun _ => true) "remco.toml" st0
    "primary" ⟨"", "", "", [⟨[], bg0⟩]⟩ rfl rfl

/-- C10: loading is not atomic on error.  If the include-directory scan
fails — the directory itself is unreadable, or some `.toml` file `bad` in
the listing is unreadable or holds malformed TOML after a prefix `pre` of
the listing was processed cleanly — `newConfiguration` returns the error
together with a configuration already holding the primary file's settings
and resources plus every non-empty resource appended from the files
before the failure (none when the directory read itself failed), and the
global logger has already been reconfigured from the primary file's
settings. -/
theorem C10_partial_on_include_error
    (fs : Fs) (valid : String → Bool) (path : String) (st : LoggerState)
    (buf : String) (c0 c1 : Configuration) (e : String)
    (hread : readFileAndExpandEnv fs path = .ok buf)
    (hparse : fs.parseConfig buf = .ok c0)
    (hdir : c0.IncludeDir ≠ "")
    (hscan :
      (fs.readDir c0.IncludeDir = .error e ∧ c1 = c0) ∨
      ∃ pre bad post,
        fs.readDir c0.IncludeDir = .ok (pre ++ bad :: post) ∧
        includeLoop fs c0.IncludeDir pre c0 = (c1, none) ∧
        hasSuffix bad ".toml" = true ∧
        (readFileAndExpandEnv fs (pathJoin c0.IncludeDir bad) = .error e ∨
          ∃ rbuf,
            readFileAndExpandEnv fs (pathJoin c0.IncludeDir bad) = .ok rbuf ∧
            fs.parseResource rbuf = .error e)) :
    newConfiguration fs valid path st
      = (c1, configureLogger valid c0 st, some e) ∧
    ∃ l, c1.Resource = c0.Resource ++ l ∧ ∀ r ∈ l, r.Template ≠ [] := by
  rcases hscan with ⟨hrd, hc1⟩ | ⟨pre, bad, post, hls, hpre, hsuf, hbad⟩
  · subst hc1
    constructor
    · unfold newConfiguration
      rw [hread]
      dsimp only
      rw [hparse]
      dsimp only
      rw [if_pos hdir, hrd]
    · exact ⟨[], by simp, by simp⟩
  · have hstep : includeLoop fs c0.IncludeDir (pre ++ bad :: post) c0
        = (c1, some e) := by
      rw [includeLoop_append_ok fs c0.IncludeDir pre (bad :: post) c0 c1 hpre]
      unfold includeLoop
      rw [if_pos hsuf]
      rcases hbad with hb | ⟨rbuf, hb1, hb2⟩
      · rw [hb]
      · rw [hb1]
        dsimp only
        rw [hb2]
    constructor
    · unfold newConfiguration
      rw [hread]
      dsimp only
      rw [hparse]
      dsimp only
      rw [if_pos hdir, hls]
      dsimp only
      rw [hstep]
    · obtain ⟨l, hl, hne⟩ := includeLoop_resources fs c0.IncludeDir pre c0
      rw [hpre] at hl
      exact ⟨l, hl, hne⟩

/-- Witness for C10, exercising two failure modes concretely: in the first
scenario `inc/a.toml` was already appended and the logger already
reconfigured when reading `inc/b.toml` failed; in the second the include
directory itself is unreadable and the primary configuration and
reconfigured logger are returned with the error. -/
theorem C10_partial_on_include_error_witness :
    (newConfiguration fsC10 (fun _ => true) "remco.toml" st0
        = (⟨"debug", "json", "inc", [⟨[⟨"tmpl"⟩], bg0⟩]⟩,
           configureLogger (fun _ => true) ⟨"debug", "json", "inc", []⟩ st0,
           some "unreadable") ∧
     ∃ l, (⟨"debug", "json", "inc",
            [⟨[⟨"tmpl"⟩], bg0⟩]⟩ : Configuration).Resource
         = (⟨"debug", "json", "inc", []⟩ : Configuration).Resource ++ l ∧
       ∀ r ∈ l, r.Template ≠ []) ∧
    (newConfiguration fsC10b (fun _ => true) "remco.toml" st0
        = (⟨"debug", "json", "inc", []⟩,
           configureLogger (fun _ => true) ⟨"debug", "json", "inc", []⟩ st0,
           some "permission denied") ∧
     ∃ l, (⟨"debug", "json", "inc", []⟩ : Configuration).Resource
         = (⟨"debug", "json", "inc", []⟩ : Configuration).Resource ++ l ∧
       ∀ r ∈ l, r.Template ≠ []) :=
  ⟨C10_partial_on_include_error fsC10 (fun _ => true) "remco.toml" st0
      "primary" ⟨"debug", "json", "inc", []⟩
      ⟨"debug", "json", "inc", [⟨[⟨"tmpl"⟩], bg0⟩]⟩ "unreadable"
      rfl rfl (by decide)
      (Or.inr ⟨["a.toml"], "b.toml", [], rfl, rfl, by decide, Or.inl rfl⟩),
   C10_partial_on_include_error fsC10b (fun _ => true) "remco.toml" st0
      "primary" ⟨"debug", "json", "inc", []⟩ ⟨"debug", "json", "inc", []⟩
      "permission denied" rfl rfl (by decide) (Or.inl ⟨rfl, rfl⟩)⟩

/-- C1: on every terminating exit path of a worker — context cancellation
during the connect/retry phase, `NewResource` construction failure, or
normal return of the watch phase — `backendList.Close()` runs exactly
once, on the full set of clients obtained during the connect phase, and it
is the final action of the worker (after the last use of any client). -/
theorem C1_close_exactly_once
    (env : WorkerEnv) (cancelAt : Option Nat) (fuel : Nat)
    (tr : Trace) (T : Nat) (ex : WorkerExit)
    (h : runWorker env cancelAt fuel = (tr, T, ex))
    (hex : ex ≠ .fuelOut) :
    closeLists tr = [appendedNames tr] ∧
    tr.getLast? = some (T, .closeSet (appendedNames tr)) := by
  unfold runWorker at h
  rcases hcp : connectPhase cancelAt env.configs 0 0 [] fuel
    with ⟨tr0, t0, out0⟩
  rw [hcp] at h
  cases out0 with
  | fuelOut =>
    dsimp only at h
    rw [Prod.mk.injEq] at h
    obtain ⟨-, h23⟩ := h
    rw [Prod.mk.injEq] at h23
    obtain ⟨-, hout⟩ := h23
    exact absurd hout.symm hex
  | cancelled =>
    dsimp only at h
    rw [Prod.mk.injEq] at h
    obtain ⟨htr, h23⟩ := h
    rw [Prod.mk.injEq] at h23
    obtain ⟨ht, -⟩ := h23
    obtain ⟨⟨pre, hpre, hclpre, hapeq⟩, -, -⟩ :=
      connectPhase_cancelled cancelAt fuel env.configs 0 0 [] tr0 t0 hcp
    rw [List.nil_append] at hpre
    subst htr
    subst ht
    constructor
    · rw [hpre, closeLists_append, hclpre]
      simp [closeLists, appendedNames_append, appendedNames]
    · rw [hpre, List.getLast?_concat]
      simp [appendedNames_append, appendedNames]
  | completed acc =>
    dsimp only at h
    cases hb : env.buildErr acc with
    | some msg =>
      rw [hb] at h
      dsimp only at h
      rw [Prod.mk.injEq] at h
      obtain ⟨htr, h23⟩ := h
      rw [Prod.mk.injEq] at h23
      obtain ⟨ht, -⟩ := h23
      obtain ⟨hacc, hcl0⟩ :=
        connectPhase_completed cancelAt fuel env.configs 0 0 [] tr0 t0 acc hcp
      rw [List.nil_append] at hacc
      subst htr
      subst ht
      have hap : appendedNames
          (tr0 ++ [(t0, WEvent.buildFail msg), (t0, WEvent.closeSet acc)])
          = appendedNames tr0 := by
        rw [appendedNames_append]
        simp [appendedNames]
      constructor
      · rw [closeLists_append, hcl0, hap, ← hacc]
        simp [closeLists]
      · rw [hap, ← hacc,
          show tr0 ++ [(t0, WEvent.buildFail msg), (t0, WEvent.closeSet acc)]
            = (tr0 ++ [(t0, WEvent.buildFail msg)])
              ++ [(t0, WEvent.closeSet acc)] by simp,
          List.getLast?_concat]
    | none =>
      rw [hb] at h
      dsimp only at h
      rw [Prod.mk.injEq] at h
      obtain ⟨htr, h23⟩ := h
      rw [Prod.mk.injEq] at h23
      obtain ⟨ht, -⟩ := h23
      obtain ⟨hacc, hcl0⟩ :=
        connectPhase_completed cancelAt fuel env.configs 0 0 [] tr0 t0 acc hcp
      rw [List.nil_append] at hacc
      subst htr
      subst ht
      have hap : appendedNames
          (tr0 ++ [(t0, WEvent.monitorRun),
            (env.monitorExit t0 cancelAt, WEvent.closeSet acc)])
          = appendedNames tr0 := by
        rw [appendedNames_append]
        simp [appendedNames]
      constructor
      · rw [closeLists_append, hcl0, hap, ← hacc]
        simp [closeLists]
      · rw [hap, ← hacc,
          show tr0 ++ [(t0, WEvent.monitorRun),
              (env.monitorExit t0 cancelAt, WEvent.closeSet acc)]
            = (tr0 ++ [(t0, WEvent.monitorRun)])
              ++ [(env.monitorExit t0 cancelAt, WEvent.closeSet acc)] by simp,
          List.getLast?_concat]

/-- Witness for C1: a concrete worker whose build phase fails still closes
its one connected client exactly once, as its final action. -/
theorem C1_close_exactly_once_witness :
    closeLists (runWorker envC1 none 3).1
      = [appendedNames (runWorker envC1 none 3).1] ∧
    (runWorker envC1 none 3).1.getLast?
      = some ((runWorker envC1 none 3).2.1,
          .closeSet (appendedNames (runWorker envC1 none 3).1)) :=
  C1_close_exactly_once envC1 none 3 (runWorker envC1 none 3).1
    (runWorker envC1 none 3).2.1 (runWorker envC1 none 3).2.2 rfl (by decide)

/-- C3 fails as stated: the retry delay is a plain `time.Sleep`, which
does not observe the context.  With one always-failing backend and the
context cancelled at tick 1 — strictly inside the sleep spanning ticks
0–2 — the worker releases at tick 2, after the sleep ran to completion,
not at the cancellation tick as "within one scheduling quantum / the retry
sleep itself observes cancellation" would require. -/
theorem C3_counterexample :
    runWorker envC3 (some 1) 5
      = ([(0, .attempt 0 0), (0, .logFail "etcd" "connection refused"),
          (2, .closeSet [])], 2, .cancelledInConnect) ∧
    (2 : Nat) ≠ 1 := by
  constructor
  · decide
  · decide

/-- C3 amended: cancelling the context while a worker is mid-retry causes
release of every client connected so far as the worker's final action,
with no connect attempts at or after the cancellation tick, and the worker
unwinds within one full retry interval (2 seconds) of cancellation — not
within one scheduling quantum, because the retry sleep runs to completion
and cancellation is only observed at the next loop check. -/
theorem C3_amended_cancel_within_retry_interval
    (env : WorkerEnv) (tc fuel : Nat) (tr : Trace) (T : Nat)
    (h : runWorker env (some tc) fuel = (tr, T, .cancelledInConnect)) :
    tc ≤ T ∧ T < tc + 2 ∧
    tr.getLast? = some (T, .closeSet (appendedNames tr)) ∧
    ∀ tm i m, (tm, WEvent.attempt i m) ∈ tr → tm < tc := by
  unfold runWorker at h
  rcases hcp : connectPhase (some tc) env.configs 0 0 [] fuel
    with ⟨tr0, t0, out0⟩
  rw [hcp] at h
  cases out0 with
  | fuelOut =>
    dsimp only at h
    rw [Prod.mk.injEq] at h
    obtain ⟨-, h23⟩ := h
    rw [Prod.mk.injEq] at h23
    obtain ⟨-, hout⟩ := h23
    cases hout
  | completed acc =>
    dsimp only at h
    cases hb : env.buildErr acc with
    | some msg =>
      rw [hb] at h
      dsimp only at h
      rw [Prod.mk.injEq] at h
      obtain ⟨-, h23⟩ := h
      rw [Prod.mk.injEq] at h23
      obtain ⟨-, hout⟩ := h23
      cases hout
    | none =>
      rw [hb] at h
      dsimp only at h
      rw [Prod.mk.injEq] at h
      obtain ⟨-, h23⟩ := h
      rw [Prod.mk.injEq] at h23
      obtain ⟨-, hout⟩ := h23
      cases hout
  | cancelled =>
    dsimp only at h
    rw [Prod.mk.injEq] at h
    obtain ⟨htr, h23⟩ := h
    rw [Prod.mk.injEq] at h23
    obtain ⟨ht, -⟩ := h23
    obtain ⟨⟨pre, hpre, hclpre, hapeq⟩, hdn, htm⟩ :=
      connectPhase_cancelled (some tc) fuel env.configs 0 0 [] tr0 t0 hcp
    have hattempts :=
      connectPhase_attempts (some tc) fuel env.configs 0 0 [] tr0 t0
        .cancelled hcp
    rw [List.nil_append] at hpre
    subst htr
    subst ht
    have h1 : tc ≤ t0 := by simpa [isDone] using hdn
    have h2 : t0 < tc + 2 := by
      rcases htm with h0 | ⟨tp, htp, hdp⟩
      · omega
      · have h3 : ¬ tc ≤ tp := by simpa [isDone] using hdp
        omega
    refine ⟨h1, h2, ?_, ?_⟩
    · rw [hpre, List.getLast?_concat]
      simp [appendedNames_append, appendedNames]
    · intro tm i m hm
      have h4 : ¬ tc ≤ tm := by simpa [isDone] using hattempts tm i m hm
      omega

/-- Witness for the amended C3 at the concrete C3 scenario: cancellation
at tick 1, release at tick 2 — at or after cancellation and within one
retry interval. -/
theorem C3_amended_cancel_within_retry_interval_witness :
    1 ≤ (runWorker envC3 (some 1) 5).2.1 ∧
    (runWorker envC3 (some 1) 5).2.1 < 1 + 2 :=
  ⟨(C3_amended_cancel_within_retry_interval envC3 1 5
      (runWorker envC3 (some 1) 5).1 (runWorker envC3 (some 1) 5).2.1
      (by decide)).1,
   (C3_amended_cancel_within_retry_interval envC3 1 5
      (runWorker envC3 (some 1) 5).1 (runWorker envC3 (some 1) 5).2.1
      (by decide)).2.1⟩

/-- C4: for a backend configuration whose connect fails with a
non-sentinel error exactly `K` times before succeeding (no cancellation),
the worker performs exactly `K` retries of that same configuration —
`K + 1` attempts at ticks `t, t+2, …, t+2K`, a fixed 2-second delay apart,
with no retry cap and no backoff — logs each of the `K` failures with the
backend name and the error, and appends exactly one client afterward,
proceeding at tick `t + 2K`. -/
theorem C4_retries_unbounded_fixed_delay
    (cfg : BackendCfg) (nm ms : Nat → String) (cname : String)
    (K idx t fuel : Nat) (acc : List String)
    (hfail : ∀ i, i < K → cfg.connect i = .err (nm i) (ms i))
    (hsucc : cfg.connect K = .ok cname)
    (hfuel : K < fuel) :
    ∃ tr, retryLoop none cfg idx 0 t acc fuel
        = (tr, t + 2 * K, .next (acc ++ [cname])) ∧
      attemptEvents tr = (List.range (K + 1)).map (fun i => (t + 2 * i, i)) ∧
      failLogs tr = (List.range K).map (fun i => (nm i, ms i)) ∧
      appendedNames tr = [cname] := by
  obtain ⟨tr, h1, h2, h3, h4⟩ :=
    retryLoop_fail_then_succeed cfg nm ms cname idx K 0 t fuel acc
      (fun i hi => by simpa using hfail i hi) (by simpa using hsucc) hfuel
  refine ⟨tr, h1, ?_, ?_, h4⟩
  · rw [h2]
    refine List.map_congr_left ?_
    intro i hi
    simp
  · rw [h3]
    refine List.map_congr_left ?_
    intro i hi
    simp

/-- Witness for C4: two transient failures, then success — two retries 2
ticks apart, both logged, one client appended. -/
theorem C4_retries_unbounded_fixed_delay_witness :
    ∃ tr, retryLoop none cfgW 0 0 0 [] 4
        = (tr, 0 + 2 * 2, .next ([] ++ ["consul"])) ∧
      attemptEvents tr = (List.range (2 + 1)).map (fun i => (0 + 2 * i, i)) ∧
      failLogs tr = (List.range 2).map (fun _ => ("consul", "timeout")) ∧
      appendedNames tr = ["consul"] :=
  C4_retries_unbounded_fixed_delay cfgW (fun _ => "consul")
    (fun _ => "timeout") "consul" 2 0 0 4 []
    (fun i hi => by interval_cases i <;> rfl) rfl (by omega)

/-- C5: a backend configuration whose connect returns the `ErrNilConfig`
sentinel is resolved by its very first attempt: no retry, no sleep (the
clock does not advance), no client appended, no failure logged, and the
connect phase proceeds directly to the next backend configuration with the
accumulated client list unchanged. -/
theorem C5_nil_config_skipped
    (cancelAt : Option Nat) (cfg : BackendCfg) (rest : List BackendCfg)
    (idx t fuel : Nat) (acc : List String)
    (hnd : isDone cancelAt t = false)
    (hnil : cfg.connect 0 = .nilConfig)
    (hfuel : 0 < fuel) :
    connectPhase cancelAt (cfg :: rest) idx t acc fuel
      = ((t, .attempt idx 0)
          :: (connectPhase cancelAt rest (idx + 1) t acc fuel).1,
         (connectPhase cancelAt rest (idx + 1) t acc fuel).2) ∧
    failLogs [(t, WEvent.attempt idx 0)] = [] ∧
    appendedNames [(t, WEvent.attempt idx 0)] = [] := by
  obtain ⟨f, rfl⟩ : ∃ f, fuel = f + 1 := ⟨fuel - 1, by omega⟩
  refine ⟨?_, by simp [failLogs], by simp [appendedNames]⟩
  conv_lhs => unfold connectPhase
  have hrl : retryLoop cancelAt cfg idx 0 t acc (f + 1)
      = ([(t, .attempt idx 0)], t, .next acc) := by
    unfold retryLoop
    rw [if_neg (by simp [hnd])]
    rw [hnil]
  rw [hrl]
  dsimp only
  simp

/-- Witness for C5 at a concrete not-configured backend. -/
theorem C5_nil_config_skipped_witness :
    connectPhase none (cfgN :: []) 0 0 [] 1
      = ((0, .attempt 0 0) :: (connectPhase none [] 1 0 [] 1).1,
         (connectPhase none [] 1 0 [] 1).2) ∧
    failLogs [(0, WEvent.attempt 0 0)] = [] ∧
    appendedNames [(0, WEvent.attempt 0 0)] = [] :=
  C5_nil_config_skipped none cfgN [] 0 0 1 [] rfl rfl (by omega)

/-- Helper: every worker unwinds no later than the join of the stop
branch. -/
theorem unwindAt_le_joinAfterCancel (s : Nat) :
    ∀ (ws : List WorkerBeh), ∀ w ∈ ws, unwindAt s w ≤ joinAfterCancel s ws := by
  intro ws
  induction ws with
  | nil =>
    intro w hw
    simp at hw
  | cons x xs ih =>
    intro w hw
    rcases List.mem_cons.mp hw with hwx | hw2
    · rw [hwx,
        show joinAfterCancel s (x :: xs)
          = max (unwindAt s x) (joinAfterCancel s xs) from rfl]
      exact le_max_left _ _
    · rw [show joinAfterCancel s (x :: xs)
          = max (unwindAt s x) (joinAfterCancel s xs) from rfl]
      exact le_trans (ih w hw2) (le_max_right _ _)

/-- Helper: the done tick ignores the worker-failure flags. -/
theorem naturalAll_clearFailed :
    ∀ ws, naturalAll (clearFailed ws) = naturalAll ws := by
  intro ws
  induction ws with
  | nil => rfl
  | cons x xs ih =>
    have h1 : naturalAll (clearFailed (x :: xs))
        = (match x.natural, naturalAll (clearFailed xs) with
           | some d, some m => some (max d m)
           | _, _ => none) := rfl
    have h2 : naturalAll (x :: xs)
        = (match x.natural, naturalAll xs with
           | some d, some m => some (max d m)
           | _, _ => none) := rfl
    rw [h1, h2, ih]

/-- Helper: the join tick ignores the worker-failure flags. -/
theorem joinAfterCancel_clearFailed (s : Nat) :
    ∀ ws, joinAfterCancel s (clearFailed ws) = joinAfterCancel s ws := by
  intro ws
  induction ws with
  | nil => rfl
  | cons x xs ih =>
    have h1 : joinAfterCancel s (clearFailed (x :: xs))
        = max (unwindAt s x) (joinAfterCancel s (clearFailed xs)) := rfl
    have h2 : joinAfterCancel s (x :: xs)
        = max (unwindAt s x) (joinAfterCancel s xs) := rfl
    rw [h1, h2, ih]

/-- C2: `run` blocks until exactly one of two events.  (a) If the stop
signal fires before all workers have finished naturally, it takes the stop
branch: it cancels the shared context at the stop tick and returns only at
a tick by which every worker has fully unwound (all releases completed).
(b) If all workers finish on their own before the stop fires (or no stop
ever fires), it returns at the all-done tick, with a result identical to a
run with no stop signal at all — it does not wait on the stop.  (c) The
outcome type carries no error, and the result is independent of the
workers' failure flags: worker failures are not aggregated or
re-raised. -/
theorem C2_run_blocks_until_stop_or_done :
    (∀ (s : Nat) (ws : List WorkerBeh),
      (∀ d, naturalAll ws = some d → s < d) →
      supRun (some s) ws
        = some (.stopped s (max s (joinAfterCancel s ws))) ∧
      ∀ w ∈ ws, unwindAt s w ≤ max s (joinAfterCancel s ws)) ∧
    (∀ (s d : Nat) (ws : List WorkerBeh),
      naturalAll ws = some d → d < s →
      supRun (some s) ws = some (.allDone d) ∧
      supRun none ws = some (.allDone d)) ∧
    (∀ (stopAt : Option Nat) (ws : List WorkerBeh),
      supRun stopAt ws = supRun stopAt (clearFailed ws)) := by
  refine ⟨?_, ?_, ?_⟩
  · intro s ws hlt
    constructor
    · unfold supRun
      cases hna : naturalAll ws with
      | none => rfl
      | some d =>
        have hd := hlt d hna
        dsimp only
        rw [if_neg (by omega)]
    · intro w hw
      exact le_trans (unwindAt_le_joinAfterCancel s ws w hw) (le_max_right _ _)
  · intro s d ws hna hds
    constructor
    · unfold supRun
      rw [hna]
      dsimp only
      rw [if_pos (by omega)]
    · unfold supRun
      rw [hna]
  · intro stopAt ws
    cases stopAt with
    | none =>
      unfold supRun
      rw [naturalAll_clearFailed]
      cases hna : naturalAll ws <;> rfl
    | some s =>
      unfold supRun
      rw [naturalAll_clearFailed]
      cases hna : naturalAll ws with
      | none =>
        dsimp only
        rw [joinAfterCancel_clearFailed]
      | some d =>
        dsimp only
        by_cases hds : d ≤ s
        · rw [if_pos hds, if_pos hds]
        · rw [if_neg hds, if_neg hds, joinAfterCancel_clearFailed]

/-- Witness for C2 on concrete worker sets: a stopped run that waits for
both workers to unwind, an all-done run that ignores a later stop, and
failure-flag independence. -/
theorem C2_run_blocks_until_stop_or_done_witness :
    (supRun (some 3) wsC2
        = some (.stopped 3 (max 3 (joinAfterCancel 3 wsC2))) ∧
     ∀ w ∈ wsC2, unwindAt 3 w ≤ max 3 (joinAfterCancel 3 wsC2)) ∧
    (supRun (some 9) wsC2b = some (.allDone 5) ∧
     supRun none wsC2b = some (.allDone 5)) ∧
    supRun (some 3) wsC2 = supRun (some 3) (clearFailed wsC2) :=
  ⟨C2_run_blocks_until_stop_or_done.1 3 wsC2
    (fun d hd => by rw [show naturalAll wsC2 = none from rfl] at hd; cases hd),
   C2_run_blocks_until_stop_or_done.2.1 9 5 wsC2b rfl (by omega),
   C2_run_blocks_until_stop_or_done.2.2 (some 3) wsC2⟩

end Remco
